import Mathlib

/-!
Verification development for the CP platform backend.

The judging engine lives in `judge/views.py` (`SubmissionView.post` /
`SubmissionView.run_judge`): submissions are executed locally with
`subprocess.run(['python', '-c', source], input=..., timeout=2)` and the
resulting `CompletedProcess` (or `TimeoutExpired` / generic exception) is
classified inline.  We embed the raw execution backend as an oracle
`exec : Nat → ExecRequest → ExecOutcome` indexed by the call number, so
that the number of subprocess invocations performed by a judging run is
observable (exactly one call per attempted testcase, mirroring the single
`subprocess.run` in the loop body).
-/

namespace CPB

/-- Verdict vocabulary of `judge.models.Submission.STATUS_CHOICES`:
Pending, Accepted, Wrong Answer, TLE, MLE, Runtime Error, Compilation Error.
There is no RUNNING and no ERROR status in this app. -/
inductive JudgeStatus where
  | Pending
  | Accepted
  | WrongAnswer
  | TimeLimitExceeded
  | MemoryLimitExceeded
  | RuntimeError
  | CompilationError
deriving DecidableEq, Repr

/-- `judge.models.Problem` constraint fields (lines 26-27):
`time_limit_ms` (default 1000) and `memory_limit_kb` (default 256000). -/
structure JudgeProblem where
  time_limit_ms : Nat
  memory_limit_kb : Nat
deriving DecidableEq, Repr

/-- `judge.models.TestCase`: input, expected output, sample flag. -/
structure TestCase where
  input_data : String
  expected_output : String
  is_sample : Bool
deriving DecidableEq, Repr

/-- The slice of `judge.models.Submission` read by the judging flow:
language, source text and the target problem (with its limits). -/
structure JudgeSubmission where
  language : String
  source_code : String
  problem : JudgeProblem
deriving DecidableEq, Repr

/-- Raw outcome of one `subprocess.run` call in `run_judge`:
either `subprocess.TimeoutExpired`, some other exception, or a completed
process carrying `returncode`, `stdout` and `stderr`.  No elapsed-time or
memory figure exists on the completed outcome: the code never measures
either. -/
inductive ExecOutcome where
  | timeout
  | exc
  | completed (returncode : Int) (stdout : String) (stderr : String)
deriving DecidableEq, Repr

/-- The parameters of one `subprocess.run` invocation from
`judge/views.py` lines 84-90. -/
structure ExecRequest where
  command : String
  source : String
  stdin : String
  timeout_s : Nat
deriving DecidableEq, Repr

/-- The request built for a testcase by `run_judge`:
`subprocess.run(['python', '-c', submission.source_code],
input=test.input_data, capture_output=True, text=True, timeout=2)`.
The command is always `python` (the declared language is ignored) and the
timeout is the literal `2` seconds; `submission.problem`'s configured
limits are in scope but never consulted. -/
def execRequestFor (sub : JudgeSubmission) (t : TestCase) : ExecRequest :=
  { command := "python"
    source := sub.source_code
    stdin := t.input_data
    timeout_s := 2 }

/-- Python's `str.strip()`: remove whitespace characters from both ends of
the string.  (Python's whitespace set also contains `\v`/`\f`, which
`Char.isWhitespace` omits; no claim depends on those characters.) -/
def pyStrip (s : String) : String :=
  ⟨((s.data.dropWhile Char.isWhitespace).reverse.dropWhile Char.isWhitespace).reverse⟩

/-- Trailing-whitespace-only normalization, following the spec's words
("stdout, after trailing-whitespace normalization"); used to compare the
spec's comparison rule against the code's `strip()`-based one. -/
def specTrimTrailing (s : String) : String :=
  ⟨(s.data.reverse.dropWhile Char.isWhitespace).reverse⟩

/-- Inline verdict classification of one testcase in `run_judge`
(lines 92-100): `TimeoutExpired → 'Time Limit Exceeded'`; any other
exception → `'Runtime Error'`; non-zero `returncode` → `'Runtime Error'`
(stderr is never consulted); `process.stdout.strip() !=
test.expected_output.strip()` → `'Wrong Answer'`; otherwise the loop
continues, which we render as `Accepted` for this testcase. -/
def classifyRun (o : ExecOutcome) (expected : String) : JudgeStatus :=
  match o with
  | .timeout => .TimeLimitExceeded
  | .exc => .RuntimeError
  | .completed returncode stdout _stderr =>
    if returncode ≠ 0 then .RuntimeError
    else if pyStrip stdout ≠ pyStrip expected then .WrongAnswer
    else .Accepted

/-- The testcase loop of `run_judge` (lines 81-102), threading the index of
the next backend call.  Each testcase consumes exactly one call; the loop
returns at the first testcase whose classification is not `Accepted`,
otherwise falls through to `'Accepted'` (also the answer for an empty
testcase set, line 78-79). The second component is the total number of
`subprocess.run` calls performed. -/
def judgeLoop (sub : JudgeSubmission) (exec : Nat → ExecRequest → ExecOutcome) :
    List TestCase → Nat → JudgeStatus × Nat
  | [], i => (.Accepted, i)
  | t :: rest, i =>
    let v := classifyRun (exec i (execRequestFor sub t)) t.expected_output
    if v = .Accepted then judgeLoop sub exec rest (i + 1) else (v, i + 1)

/-- `judge.views.SubmissionView.run_judge`: final verdict for a submission
over its (queryset-ordered) testcases. -/
def run_judge (sub : JudgeSubmission) (tests : List TestCase)
    (exec : Nat → ExecRequest → ExecOutcome) : JudgeStatus :=
  (judgeLoop sub exec tests 0).1

/-- Number of backend (subprocess) calls performed by `run_judge`; equals
the number of attempted testcases, since the loop body performs exactly
one `subprocess.run` per iteration. -/
def execCallsUsed (sub : JudgeSubmission) (tests : List TestCase)
    (exec : Nat → ExecRequest → ExecOutcome) : Nat :=
  (judgeLoop sub exec tests 0).2

/-- Per-testcase verdict of the indexed testcase `it`, as produced inside
the `run_judge` loop. -/
def testVerdict (sub : JudgeSubmission) (exec : Nat → ExecRequest → ExecOutcome)
    (it : Nat × TestCase) : JudgeStatus :=
  classifyRun (exec it.1 (execRequestFor sub it.2)) it.2.expected_output

/-- `submissions/languages.py` `LANGUAGE_CONFIG`: the live registry maps a
language code to a bare Judge0 numeric id.  (A richer table with
`time_multiplier`/`memory_multiplier` exists only inside a comment in
that file; the executable configuration carries no multipliers.) -/
def LANGUAGE_CONFIG : List (String × Nat) :=
  [("PY", 71), ("CPP", 54), ("JAVA", 62)]

/-- Status vocabulary of `submissions.models.SubmissionResult.STATUS_CHOICES`
(the newer app): includes ERROR, unlike the judge app's statuses. -/
inductive ResultStatus where
  | PENDING
  | AC
  | WA
  | TLE
  | MLE
  | RE
  | CE
  | ERROR
deriving DecidableEq, Repr

/-- A `submissions.models.SubmissionResult` row: cached testcase data plus
the per-testcase result and metrics. -/
structure SubmissionResult where
  is_sample : Bool
  input_data : Option String
  expected_output : Option String
  status : ResultStatus
  actual_output : Option String
  stderr : Option String
  execution_time : Option Int
  memory_used : Option Int
deriving DecidableEq, Repr

/-- The statistics update in `judge.views.SubmissionView.post`
(lines 67-72): when the final status is `'Accepted'`, fetch
`request.user.statistics` (`None` when the user has no row) and, if
present, unconditionally do `stats.total_solved += 1`.  No check of
previous submissions or of which problem was solved exists. -/
def updateStatsOnVerdict (final : JudgeStatus) (stats : Option Int) : Option Int :=
  if final = .Accepted then stats.map (fun n => n + 1) else stats

/-- Observable outcome of one call to `judge.views.SubmissionView.post`:
HTTP status, the status persisted on the created submission row (`none`
when no row was created), the user's `total_solved` statistic after the
request, and the `SubmissionResult` rows created by the request. -/
structure JudgePostOutcome where
  http_status : Nat
  stored_status : Option JudgeStatus
  stats_total_solved : Option Int
  results_created : List SubmissionResult
deriving DecidableEq, Repr

/-- `judge.views.SubmissionView.post` (lines 40-74): reject with 400 when a
field is missing, 404 when the problem does not exist; otherwise create
the submission (status `'Pending'`), run `run_judge` synchronously,
persist the final status, update statistics on `'Accepted'`, and answer
201.  Nowhere in the repository is a `SubmissionResult` row created, so
`results_created` is always empty. -/
def submissionView_post (fields_present problem_found : Bool)
    (sub : JudgeSubmission) (tests : List TestCase)
    (exec : Nat → ExecRequest → ExecOutcome) (stats : Option Int) :
    JudgePostOutcome :=
  if fields_present = false then
    { http_status := 400, stored_status := none,
      stats_total_solved := stats, results_created := [] }
  else if problem_found = false then
    { http_status := 404, stored_status := none,
      stats_total_solved := stats, results_created := [] }
  else
    let final := run_judge sub tests exec
    { http_status := 201
      stored_status := some final
      stats_total_solved := updateStatsOnVerdict final stats
      results_created := [] }

/-- Status vocabulary of `submissions.models.Submission.STATUS_CHOICES`
(the app used by the contest submission endpoint). -/
inductive SubStatus where
  | PENDING
  | RUNNING
  | AC
  | WA
  | TLE
  | MLE
  | RE
  | CE
deriving DecidableEq, Repr

/-- Observable outcome of `contest.views.ContestSubmissionCreateView.post`:
HTTP status and the status stored on the created submission row (`none`
when no row was created). -/
structure ContestPostOutcome where
  http_status : Nat
  stored_status : Option SubStatus
deriving DecidableEq, Repr

/-- `contest.views.ContestSubmissionCreateView.post` (lines 1071-1119):
403 when `now` is outside `[start_time, end_time)`, 404 when the problem
is not a contest item, 400 on invalid data; otherwise create the
submission with `status='PENDING'` and immediately answer 201.  No judging
code is invoked on this path. -/
def contestSubmissionCreateView_post (start_time end_time current_time : Int)
    (problem_in_contest data_valid : Bool) : ContestPostOutcome :=
  if ¬ (start_time ≤ current_time ∧ current_time < end_time) then
    { http_status := 403, stored_status := none }
  else if problem_in_contest = false then
    { http_status := 404, stored_status := none }
  else if data_valid = false then
    { http_status := 400, stored_status := none }
  else
    { http_status := 201, stored_status := some .PENDING }

/-- Fixture: a problem with the default limits of `judge.models.Problem`. -/
def fxProblem : JudgeProblem := { time_limit_ms := 1000, memory_limit_kb := 256000 }

/-- Fixture: a problem with limits larger than the defaults. -/
def fxProblemBig : JudgeProblem := { time_limit_ms := 5000, memory_limit_kb := 512000 }

/-- Fixture submission targeting `fxProblem`. -/
def fxSub : JudgeSubmission :=
  { language := "python", source_code := "print(input())", problem := fxProblem }

/-- Fixture submission (same user code) targeting `fxProblemBig`. -/
def fxSubBig : JudgeSubmission :=
  { language := "python", source_code := "print(input())", problem := fxProblemBig }

/-- Fixture testcase 1: echoing input `1` is correct. -/
def fxT1 : TestCase := { input_data := "1", expected_output := "1", is_sample := true }

/-- Fixture testcase 2: echoing input `2` is correct. -/
def fxT2 : TestCase := { input_data := "2", expected_output := "2", is_sample := false }

/-- Fixture backend: the program echoes stdin (accepted on both fixtures). -/
def fxExecEcho : Nat → ExecRequest → ExecOutcome :=
  fun _ r => .completed 0 r.stdin ""

/-- Fixture backend: correct on stdin `1`, wrong output on anything else. -/
def fxExecWrongSecond : Nat → ExecRequest → ExecOutcome :=
  fun _ r => if r.stdin = "1" then .completed 0 "1" "" else .completed 0 "0" ""

/-- Fixture backend: every execution exceeds the subprocess timeout. -/
def fxExecTimeout : Nat → ExecRequest → ExecOutcome :=
  fun _ _ => .timeout

/-- Fixture backend: the first call raises (transient failure), every later
call echoes stdin — a retry of the failed testcase would succeed. -/
def fxExecRaise : Nat → ExecRequest → ExecOutcome :=
  fun i r => if i = 0 then .exc else .completed 0 r.stdin ""

/-- One row of the queryset read by `contest.views.ContestLeaderboardView.get`
(lines 1207-1246): the contest's submissions filtered to `status='AC'` and
ordered by `('user', 'created_at')`.  `created_at` is kept in minutes from
some epoch (the unit is irrelevant to the code, which never computes with
it). -/
structure LBSub where
  user_id : Nat
  username : String
  problem_id : Nat
  problem_title : String
  created_at : Int
deriving DecidableEq, Repr

/-- One element of an entry's `problems` list in the leaderboard payload
(`problem_id`, `title`, `status='AC'` implicit, `solved_at`). -/
structure LBProblemCell where
  problem_id : Nat
  title : String
  solved_at : Int
deriving DecidableEq, Repr

/-- One leaderboard entry: `user`, `user_id`, `total_score`, `problems`.
Note the payload carries no penalty field of any kind. -/
structure LBEntry where
  user : String
  user_id : Nat
  total_score : Nat
  problems : List LBProblemCell
deriving DecidableEq, Repr

/-- `sub.user.username not in leaderboard` test (dict-key membership). -/
def lbHasUser (entries : List LBEntry) (uname : String) : Bool :=
  entries.any (fun e => e.user == uname)

/-- The problem cell appended for an AC submission: problem id, title and
`solved_at := sub.created_at`. -/
def cellOf (s : LBSub) : LBProblemCell :=
  { problem_id := s.problem_id, title := s.problem_title,
    solved_at := s.created_at }

/-- Body of the inner guard: if the user's entry has no cell for this
problem yet, append one and add the flat `100` to `total_score`
(the `ContestItem.score` field is never consulted). -/
def lbAddProblem (e : LBEntry) (s : LBSub) : LBEntry :=
  if e.problems.any (fun p => p.problem_id == s.problem_id) then e
  else
    { e with
      problems := e.problems ++ [cellOf s]
      total_score := e.total_score + 100 }

/-- Update the (unique) dict entry keyed by the submission's username. -/
def lbUpdateUser (entries : List LBEntry) (s : LBSub) : List LBEntry :=
  entries.map (fun e => if e.user == s.username then lbAddProblem e s else e)

/-- One iteration of the `for sub in submissions` loop: create the user's
entry at the end of the (insertion-ordered) dict if absent, then process
the submission's problem. -/
def lbStep (entries : List LBEntry) (s : LBSub) : List LBEntry :=
  lbUpdateUser
    (if lbHasUser entries s.username then entries
     else entries ++
       [{ user := s.username, user_id := s.user_id, total_score := 0,
          problems := [] }])
    s

/-- The dict-building loop over the ordered AC-submission queryset. -/
def lbBuild (subs : List LBSub) : List LBEntry :=
  subs.foldl lbStep []

/-- Stable insertion into a score-descending list: walk past strictly
greater scores, settle before any equal-or-smaller score. -/
def lbInsert (e : LBEntry) : List LBEntry → List LBEntry
  | [] => [e]
  | f :: rest =>
    if e.total_score < f.total_score then f :: lbInsert e rest
    else e :: f :: rest

/-- `sorted(leaderboard.values(), key=lambda x: x['total_score'],
reverse=True)`: Python's sort is stable; descending by score only.
Modelled as stable insertion sort, which computes exactly the stable
score-descending permutation. -/
def lbSortDesc : List LBEntry → List LBEntry
  | [] => []
  | e :: rest => lbInsert e (lbSortDesc rest)

/-- `contest.views.ContestLeaderboardView.get`: build the per-user dict
from the AC submissions (queryset order) and sort by score descending. -/
def contestLeaderboardView_get (subs : List LBSub) : List LBEntry :=
  lbSortDesc (lbBuild subs)

/-- The queryset order `order_by('user', 'created_at')`: user id first,
creation time second. -/
def lbLexLE (s1 s2 : LBSub) : Prop :=
  s1.user_id < s2.user_id ∨
    (s1.user_id = s2.user_id ∧ s1.created_at ≤ s2.created_at)

instance lbLexLE_dec : DecidableRel lbLexLE := fun s1 s2 =>
  inferInstanceAs (Decidable (s1.user_id < s2.user_id ∨
    (s1.user_id = s2.user_id ∧ s1.created_at ≤ s2.created_at)))

/-- Consistency of the user foreign key: equal usernames denote the same
user id (usernames are unique in `accounts.models.User`). -/
def UidConsistent (l : List LBSub) : Prop :=
  ∀ s1 ∈ l, ∀ s2 ∈ l, s1.username = s2.username → s1.user_id = s2.user_id

instance UidConsistent_dec : DecidablePred UidConsistent := fun l =>
  inferInstanceAs (Decidable (∀ s1 ∈ l, ∀ s2 ∈ l,
    s1.username = s2.username → s1.user_id = s2.user_id))

/-- Modelled from the spec (§4.6): penalty time of one solved problem,
"(that submission's creation time − contest start time), in minutes,
non-negative" (timestamps here are already in minutes). -/
def specPenaltyMinutes (contest_start solved_at : Int) : Int :=
  max (solved_at - contest_start) 0

/-- Modelled from the spec (§4.6): an entry's total penalty is the sum of
the per-problem penalty times of its solved problems. -/
def specEntryPenalty (contest_start : Int) (e : LBEntry) : Int :=
  (e.problems.map (fun p => specPenaltyMinutes contest_start p.solved_at)).sum

/-- Modelled from the spec (§4.6): the claimed ranking invariant — each
adjacent pair is ordered by total score descending, ties broken by total
penalty ascending. -/
def specRankedOk (contest_start : Int) : List LBEntry → Bool
  | [] => true
  | [_] => true
  | a :: b :: rest =>
    (decide (b.total_score < a.total_score) ||
      (a.total_score == b.total_score &&
        decide (specEntryPenalty contest_start a ≤ specEntryPenalty contest_start b))) &&
    specRankedOk contest_start (b :: rest)

/-- Fixture: user A (id 1) gets problem 31 accepted at minute 5. -/
def fxSubA : LBSub :=
  { user_id := 1, username := "A", problem_id := 31, problem_title := "P1",
    created_at := 5 }

/-- Fixture: user B (id 2) gets problem 31 accepted at minute 3. -/
def fxSubB : LBSub :=
  { user_id := 2, username := "B", problem_id := 31, problem_title := "P1",
    created_at := 3 }

/-- Correctness bundle for the leaderboard-building loop, relative to the
processed prefix `done` of the AC-submission queryset: scores are a flat
100 per recorded problem cell; every cell originates from a processed
submission; every cell's `solved_at` is minimal among the user's processed
submissions for that problem; every processed submission's user appears;
every entry whose user matches a processed submission has a cell for that
submission's problem; and every entry originates from some processed
submission. -/
def LbInv (done : List LBSub) (entries : List LBEntry) : Prop :=
  (∀ e ∈ entries, e.total_score = 100 * e.problems.length) ∧
  (∀ e ∈ entries, ∀ c ∈ e.problems, ∃ s ∈ done,
    s.username = e.user ∧ s.problem_id = c.problem_id ∧
    s.problem_title = c.title ∧ s.created_at = c.solved_at) ∧
  (∀ e ∈ entries, ∀ c ∈ e.problems, ∀ s ∈ done,
    s.username = e.user → s.problem_id = c.problem_id →
    c.solved_at ≤ s.created_at) ∧
  (∀ s ∈ done, ∃ e ∈ entries, e.user = s.username) ∧
  (∀ s ∈ done, ∀ e ∈ entries, e.user = s.username →
    ∃ c ∈ e.problems, c.problem_id = s.problem_id) ∧
  (∀ e ∈ entries, ∃ s ∈ done, s.username = e.user ∧ s.user_id = e.user_id)

/-- Contest state machine vocabulary of `contest.models.Contest`. -/
inductive ContestState where
  | DRAFT
  | SCHEDULED
  | LIVE
  | ENDED
deriving DecidableEq, Repr

/-- The slice of `contest.models.Contest` read by result access control. -/
structure ContestRec where
  state : ContestState
  start_time : Int
  end_time : Int
  created_by : Nat
  managers : List Nat
deriving DecidableEq, Repr

/-- `Contest.is_live` (contest/models.py line 139-141):
`state == 'LIVE' and start_time <= now < end_time`. -/
def ContestRec.is_live (c : ContestRec) (t : Int) : Bool :=
  c.state == .LIVE && decide (c.start_time ≤ t) && decide (t < c.end_time)

/-- `Contest.is_ended` (contest/models.py line 143-144):
`state == 'ENDED' or now >= end_time`. -/
def ContestRec.is_ended (c : ContestRec) (t : Int) : Bool :=
  c.state == .ENDED || decide (c.end_time ≤ t)

/-- The slice of `submissions.models.Submission` read by result access
control: the owner and the optional contest. -/
structure SubRec where
  user_id : Nat
  contest : Option ContestRec
deriving DecidableEq, Repr

/-- The requesting user as seen by `can_view_details` / the serializer. -/
structure Viewer where
  id : Nat
  is_superuser : Bool
deriving DecidableEq, Repr

/-- `SubmissionResult.can_view_details` (submissions/models.py lines
255-282): superuser → yes; owner → yes; contest creator/manager → yes;
during a live contest participants see only sample testcases; after the
contest ends everything is visible; otherwise nothing. -/
def can_view_details (r : SubmissionResult) (sub : SubRec)
    (user : Option Viewer) (t : Int) : Bool :=
  match user with
  | none => false
  | some u =>
    if u.is_superuser then true
    else if u.id == sub.user_id then true
    else
      match sub.contest with
      | some c =>
        if c.created_by == u.id || c.managers.contains u.id then true
        else if c.is_live t then r.is_sample
        else if c.is_ended t then true
        else false
      | none => false

/-- `SubmissionResultSerializer._is_contest_ongoing` (serializers.py lines
72-77): the submission belongs to a contest and `now() < end_time`. -/
def is_contest_ongoing (sub : SubRec) (t : Int) : Bool :=
  match sub.contest with
  | none => false
  | some c => decide (t < c.end_time)

/-- `SubmissionResultSerializer.get_test_case_input` (lines 36-46):
`None` unless `can_view_details`; during an ongoing contest additionally
`None` for every non-sample testcase, for every viewer. -/
def get_test_case_input (r : SubmissionResult) (sub : SubRec)
    (user : Option Viewer) (t : Int) : Option String :=
  if can_view_details r sub user t = false then none
  else if is_contest_ongoing sub t && !r.is_sample then none
  else r.input_data

/-- `SubmissionResultSerializer.get_expected_output_value` (lines 48-58):
same gate as `get_test_case_input`, returning the cached expected
output. -/
def get_expected_output_value (r : SubmissionResult) (sub : SubRec)
    (user : Option Viewer) (t : Int) : Option String :=
  if can_view_details r sub user t = false then none
  else if is_contest_ongoing sub t && !r.is_sample then none
  else r.expected_output

/-- Fixture: a live contest (window `[0, 100)`) created and managed by
user 7. -/
def fxContest : ContestRec :=
  { state := .LIVE, start_time := 0, end_time := 100, created_by := 7,
    managers := [7] }

/-- Fixture: a contest submission owned by user 7. -/
def fxContestSub : SubRec := { user_id := 7, contest := some fxContest }

/-- Fixture: a hidden (non-sample) testcase result with cached data. -/
def fxHiddenRow : SubmissionResult :=
  { is_sample := false, input_data := some "secret input",
    expected_output := some "42", status := .WA,
    actual_output := some "41", stderr := none,
    execution_time := some 12, memory_used := some 3 }

/-- Fixture: a viewer who is simultaneously the submission owner, the
contest creator/manager, and a superuser. -/
def fxOwnerAdmin : Viewer := { id := 7, is_superuser := true }

end CPB

namespace CPB

theorem judgeLoop_nil (sub : JudgeSubmission)
    (exec : Nat → ExecRequest → ExecOutcome) (i : Nat) :
    judgeLoop sub exec [] i = (.Accepted, i) := rfl

theorem judgeLoop_cons (sub : JudgeSubmission)
    (exec : Nat → ExecRequest → ExecOutcome) (t : TestCase)
    (rest : List TestCase) (i : Nat) :
    judgeLoop sub exec (t :: rest) i =
      if testVerdict sub exec (i, t) = .Accepted then
        judgeLoop sub exec rest (i + 1)
      else (testVerdict sub exec (i, t), i + 1) := rfl

theorem enumFrom_cons_eq {α : Type} (i : Nat) (a : α) (l : List α) :
    List.enumFrom i (a :: l) = (i, a) :: List.enumFrom (i + 1) l := rfl

theorem judgeLoop_accepted_iff (sub : JudgeSubmission)
    (exec : Nat → ExecRequest → ExecOutcome) :
    ∀ (ts : List TestCase) (i : Nat),
      (judgeLoop sub exec ts i).1 = .Accepted ↔
        ∀ p ∈ ts.enumFrom i, testVerdict sub exec p = .Accepted := by
  intro ts
  induction ts with
  | nil => intro i; simp [judgeLoop_nil, List.enumFrom]
  | cons t rest ih =>
    intro i
    rw [judgeLoop_cons, enumFrom_cons_eq]
    by_cases h : testVerdict sub exec (i, t) = .Accepted
    · rw [if_pos h, ih (i + 1)]
      constructor
      · intro hall p hp
        rcases List.mem_cons.mp hp with hp | hp
        · subst hp; exact h
        · exact hall p hp
      · intro hall p hp
        exact hall p (List.mem_cons.mpr (Or.inr hp))
    · rw [if_neg h]
      constructor
      · intro hacc; exact absurd hacc h
      · intro hall
        exact absurd (hall (i, t) (List.mem_cons.mpr (Or.inl rfl))) h

theorem judgeLoop_first_failure (sub : JudgeSubmission)
    (exec : Nat → ExecRequest → ExecOutcome) :
    ∀ (l1 : List TestCase) (i : Nat) (t : TestCase) (l2 : List TestCase),
      (∀ p ∈ l1.enumFrom i, testVerdict sub exec p = .Accepted) →
      testVerdict sub exec (i + l1.length, t) ≠ .Accepted →
      judgeLoop sub exec (l1 ++ t :: l2) i =
        (testVerdict sub exec (i + l1.length, t), i + l1.length + 1) := by
  intro l1
  induction l1 with
  | nil =>
    intro i t l2 _ hfail
    simp only [List.length_nil, Nat.add_zero] at hfail
    rw [List.nil_append, judgeLoop_cons, if_neg hfail]
    simp
  | cons u rest ih =>
    intro i t l2 hacc hfail
    have hu : testVerdict sub exec (i, u) = .Accepted :=
      hacc (i, u) (by rw [enumFrom_cons_eq]; exact List.mem_cons.mpr (Or.inl rfl))
    have hrest : ∀ p ∈ rest.enumFrom (i + 1), testVerdict sub exec p = .Accepted := by
      intro p hp
      exact hacc p (by rw [enumFrom_cons_eq]; exact List.mem_cons.mpr (Or.inr hp))
    have harith : i + 1 + rest.length = i + (u :: rest).length := by
      simp [List.length_cons]; omega
    have hfail1 : testVerdict sub exec (i + 1 + rest.length, t) ≠ .Accepted := by
      rw [harith]; exact hfail
    rw [List.cons_append, judgeLoop_cons, if_pos hu, ih (i + 1) t l2 hrest hfail1,
      harith]

/-- Claim C1: for every judged submission, the overall verdict is
`Accepted` iff every testcase evaluates to `Accepted` in the run; otherwise
it equals the per-testcase status of the first testcase, in the given
queryset order, whose status is not `Accepted`, and judging stops at that
testcase (exactly `l1.length + 1` backend calls are made, so later
testcases are never executed). -/
theorem run_judge_first_failure_policy (sub : JudgeSubmission)
    (exec : Nat → ExecRequest → ExecOutcome) (tests : List TestCase) :
    (run_judge sub tests exec = .Accepted ↔
      ∀ p ∈ tests.enum, testVerdict sub exec p = .Accepted) ∧
    (∀ l1 t l2, tests = l1 ++ t :: l2 →
      (∀ p ∈ l1.enum, testVerdict sub exec p = .Accepted) →
      testVerdict sub exec (l1.length, t) ≠ .Accepted →
      run_judge sub tests exec = testVerdict sub exec (l1.length, t) ∧
        execCallsUsed sub tests exec = l1.length + 1) := by
  constructor
  · rw [run_judge, List.enum]
    exact judgeLoop_accepted_iff sub exec tests 0
  · intro l1 t l2 hsplit hacc hfail
    subst hsplit
    have hfail0 : testVerdict sub exec (0 + l1.length, t) ≠ .Accepted := by
      simpa using hfail
    have hacc0 : ∀ p ∈ l1.enumFrom 0, testVerdict sub exec p = .Accepted := by
      rw [← List.enum]; exact hacc
    have h := judgeLoop_first_failure sub exec l1 0 t l2 hacc0 hfail0
    constructor
    · rw [run_judge, h]; simp
    · rw [execCallsUsed, h]; simp

/-- Witness for C1: on a two-testcase run whose second testcase produces a
wrong answer, the overall verdict is the first non-accepted testcase
status (`WrongAnswer`) and exactly two backend calls were made. -/
theorem run_judge_first_failure_policy_witness :
    run_judge fxSub [fxT1, fxT2] fxExecWrongSecond = .WrongAnswer ∧
    execCallsUsed fxSub [fxT1, fxT2] fxExecWrongSecond = 2 := by
  have h := (run_judge_first_failure_policy fxSub fxExecWrongSecond [fxT1, fxT2]).2
    [fxT1] fxT2 [] rfl (by decide) (by decide)
  exact ⟨by rw [h.1]; decide, by simpa using h.2⟩

theorem classifyRun_ne_pending (o : ExecOutcome) (e : String) :
    classifyRun o e ≠ .Pending := by
  cases o with
  | timeout => simp [classifyRun]
  | exc => simp [classifyRun]
  | completed rc out err =>
    simp only [classifyRun]
    split
    · simp
    · split <;> simp

theorem judgeLoop_ne_pending (sub : JudgeSubmission)
    (exec : Nat → ExecRequest → ExecOutcome) :
    ∀ (ts : List TestCase) (i : Nat), (judgeLoop sub exec ts i).1 ≠ .Pending := by
  intro ts
  induction ts with
  | nil => intro i; simp [judgeLoop_nil]
  | cons t rest ih =>
    intro i
    rw [judgeLoop_cons]
    split
    · exact ih (i + 1)
    · exact classifyRun_ne_pending _ _

/-- Counterexample to C2: the contest submission endpoint, called inside
the submission window with a valid problem and payload, answers 201
Created while the stored submission status is still `PENDING` — no judging
was performed. -/
theorem contest_submission_left_pending :
    (contestSubmissionCreateView_post 0 100 10 true true).http_status = 201 ∧
    (contestSubmissionCreateView_post 0 100 10 true true).stored_status =
      some SubStatus.PENDING := by
  constructor <;> rfl

/-- C2 (amended): the judge app's `SubmissionView.post` persists the final
`run_judge` verdict — never `Pending` — before answering; but
`ContestSubmissionCreateView.post` on its success path answers 201 with
the stored status `PENDING` and performs no judging. -/
theorem submission_endpoints_verdict_persistence
    (sub : JudgeSubmission) (tests : List TestCase)
    (exec : Nat → ExecRequest → ExecOutcome) (stats : Option Int)
    (s e t : Int) (h1 : s ≤ t) (h2 : t < e) :
    (submissionView_post true true sub tests exec stats).http_status = 201 ∧
    (submissionView_post true true sub tests exec stats).stored_status =
      some (run_judge sub tests exec) ∧
    run_judge sub tests exec ≠ .Pending ∧
    (contestSubmissionCreateView_post s e t true true).http_status = 201 ∧
    (contestSubmissionCreateView_post s e t true true).stored_status =
      some SubStatus.PENDING := by
  refine ⟨rfl, rfl, judgeLoop_ne_pending sub exec tests 0, ?_, ?_⟩ <;>
  · rw [contestSubmissionCreateView_post, if_neg (by omega)]
    rfl

/-- Witness for the amended C2 at concrete inputs. -/
theorem submission_endpoints_verdict_persistence_witness :
    (submissionView_post true true fxSub [fxT1] fxExecEcho (some 0)).stored_status =
      some (run_judge fxSub [fxT1] fxExecEcho) ∧
    (contestSubmissionCreateView_post 0 100 10 true true).stored_status =
      some SubStatus.PENDING := by
  have h := submission_endpoints_verdict_persistence fxSub [fxT1] fxExecEcho (some 0)
    0 100 10 (by decide) (by decide)
  exact ⟨h.2.1, h.2.2.2.2⟩

/-- C3 (code evaluated at the failing input): a submission that times out
on the first of two testcases ends with verdict `Time Limit Exceeded`,
only 1 backend call (testcase 2 not attempted) — and the persisted
`SubmissionResult` rows are `[]`, not the one TLE row the claim
requires: no code in the repository ever creates such a row. -/
theorem tle_first_testcase_persists_no_results :
    run_judge fxSub [fxT1, fxT2] fxExecTimeout = .TimeLimitExceeded ∧
    execCallsUsed fxSub [fxT1, fxT2] fxExecTimeout = 1 ∧
    (submissionView_post true true fxSub [fxT1, fxT2] fxExecTimeout
      (some 0)).results_created = [] ∧
    (submissionView_post true true fxSub [fxT1, fxT2] fxExecTimeout
      (some 0)).stored_status = some JudgeStatus.TimeLimitExceeded := by
  refine ⟨by decide, by decide, rfl, by decide⟩

/-- C5 counterexample: two problems whose configured time limits differ
(1000 ms vs 5000 ms) are both executed under the same hard-coded 2-second
subprocess timeout; the enforced ceiling matches neither configured limit,
and the live language registry carries a bare Judge0 id (no multipliers). -/
theorem enforced_timeout_is_constant :
    (execRequestFor fxSub fxT1).timeout_s = 2 ∧
    (execRequestFor fxSubBig fxT1).timeout_s = 2 ∧
    fxSub.problem.time_limit_ms = 1000 ∧
    fxSubBig.problem.time_limit_ms = 5000 ∧
    (execRequestFor fxSubBig fxT1).timeout_s * 1000 ≠
      fxSubBig.problem.time_limit_ms ∧
    LANGUAGE_CONFIG.lookup "PY" = some 71 := by
  refine ⟨rfl, rfl, rfl, rfl, by decide, by decide⟩

theorem judgeLoop_limits_irrelevant (lang1 lang2 src : String)
    (p1 p2 : JudgeProblem) (exec : Nat → ExecRequest → ExecOutcome) :
    ∀ (ts : List TestCase) (i : Nat),
      judgeLoop ⟨lang1, src, p1⟩ exec ts i = judgeLoop ⟨lang2, src, p2⟩ exec ts i := by
  intro ts
  induction ts with
  | nil => intro i; rfl
  | cons t rest ih =>
    intro i
    rw [judgeLoop_cons, judgeLoop_cons]
    have hv : testVerdict ⟨lang1, src, p1⟩ exec (i, t) =
        testVerdict ⟨lang2, src, p2⟩ exec (i, t) := rfl
    rw [hv]
    split
    · exact ih (i + 1)
    · rfl

/-- C5 (amended): every testcase execution uses the fixed request
`['python', '-c', source]` with the literal 2-second timeout and no memory
bound; neither the problem's configured limits nor the declared language
influence the execution — two submissions differing only in language and
target-problem limits judge identically. -/
theorem execution_ignores_problem_limits :
    (∀ (sub : JudgeSubmission) (t : TestCase),
      (execRequestFor sub t).timeout_s = 2 ∧
      (execRequestFor sub t).command = "python") ∧
    (∀ (lang1 lang2 src : String) (p1 p2 : JudgeProblem)
      (tests : List TestCase) (exec : Nat → ExecRequest → ExecOutcome),
      run_judge ⟨lang1, src, p1⟩ tests exec = run_judge ⟨lang2, src, p2⟩ tests exec) := by
  refine ⟨fun sub t => ⟨rfl, rfl⟩, fun lang1 lang2 src p1 p2 tests exec => ?_⟩
  rw [run_judge, run_judge, judgeLoop_limits_irrelevant lang1 lang2 src p1 p2 exec tests 0]

/-- C6 counterexample: a stdout that differs from the expected output
after trailing-whitespace normalization (`" x"` vs `"x"`) is nevertheless
judged `Accepted`, because the code strips whitespace from *both* ends
before comparing — the claim requires `WrongAnswer` here. -/
theorem leading_whitespace_judged_accepted :
    specTrimTrailing " x" ≠ specTrimTrailing "x" ∧
    classifyRun (.completed 0 " x" "") "x" = .Accepted ∧
    JudgeStatus.Accepted ≠ JudgeStatus.WrongAnswer := by
  refine ⟨by decide, by decide, by decide⟩

/-- C6 (amended): a non-zero exit yields `RuntimeError` regardless of
stderr; with zero exit, a stdout differing from the expected output after
stripping whitespace from BOTH ends yields `WrongAnswer`; `TimeoutExpired`
yields `TimeLimitExceeded` and any other exception `RuntimeError` — no
elapsed-time comparison exists anywhere in the classification. -/
theorem classification_cases (rc : Int) (out err exp : String) :
    (rc ≠ 0 → classifyRun (.completed rc out err) exp = .RuntimeError) ∧
    (rc = 0 → pyStrip out ≠ pyStrip exp →
      classifyRun (.completed rc out err) exp = .WrongAnswer) ∧
    classifyRun .timeout exp = .TimeLimitExceeded ∧
    classifyRun .exc exp = .RuntimeError := by
  refine ⟨fun h => by simp [classifyRun, h], fun h hne => ?_, rfl, rfl⟩
  simp [classifyRun, h, hne]

/-- Witness for the amended C6 at concrete raw outcomes. -/
theorem classification_cases_witness :
    classifyRun (.completed 1 "7" "boom") "7" = .RuntimeError ∧
    classifyRun (.completed 0 "8" "") "7" = .WrongAnswer := by
  exact ⟨(classification_cases 1 "7" "boom" "7").1 (by decide),
    (classification_cases 0 "8" "" "7").2.1 rfl (by decide)⟩

/-- C7 counterexample: the backend raises on the very first call and would
succeed on any retry, yet the run makes exactly one call (no retry), the
whole submission is marked `RuntimeError` (there is no per-testcase
`ERROR`, and judging does not continue), and no result rows exist. -/
theorem executor_failure_not_retried :
    run_judge fxSub [fxT1, fxT2] fxExecRaise = .RuntimeError ∧
    execCallsUsed fxSub [fxT1, fxT2] fxExecRaise = 1 ∧
    (submissionView_post true true fxSub [fxT1, fxT2] fxExecRaise
      (some 0)).results_created = [] := by
  refine ⟨by decide, by decide, rfl⟩

/-- C7 (amended): when the execution of the first testcase raises, the
submission's verdict is immediately `RuntimeError` after exactly one
backend call: the failed testcase is not retried, nothing is recorded as
`ERROR`, and the remaining testcases are never attempted. -/
theorem executor_failure_aborts_run (sub : JudgeSubmission) (t : TestCase)
    (rest : List TestCase) (exec : Nat → ExecRequest → ExecOutcome)
    (h : exec 0 (execRequestFor sub t) = .exc) :
    run_judge sub (t :: rest) exec = .RuntimeError ∧
    execCallsUsed sub (t :: rest) exec = 1 := by
  have hv : testVerdict sub exec (0, t) = .RuntimeError := by
    simp [testVerdict, h, classifyRun]
  constructor
  · rw [run_judge, judgeLoop_cons, if_neg (by rw [hv]; decide), hv]
  · rw [execCallsUsed, judgeLoop_cons, if_neg (by rw [hv]; decide)]

/-- Witness for the amended C7 at the concrete raising backend. -/
theorem executor_failure_aborts_run_witness :
    run_judge fxSub [fxT1, fxT2] fxExecRaise = .RuntimeError ∧
    execCallsUsed fxSub [fxT1, fxT2] fxExecRaise = 1 := by
  exact executor_failure_aborts_run fxSub fxT1 [fxT2] fxExecRaise rfl

/-- C8 counterexample: judging two accepted submissions by the same user
for the same problem increments `total_solved` twice (0 → 1 → 2); the
claim allows at most one increment per problem. -/
theorem total_solved_double_increment :
    run_judge fxSub [fxT1] fxExecEcho = .Accepted ∧
    (submissionView_post true true fxSub [fxT1] fxExecEcho
      ((submissionView_post true true fxSub [fxT1] fxExecEcho
        (some 0)).stats_total_solved)).stats_total_solved = some 2 := by
  refine ⟨by decide, by decide⟩

/-- C8 (amended): `total_solved` is incremented on every judged submission
whose verdict is `Accepted` — with no guard on the problem, the user's
history, or previous accepted submissions. -/
theorem total_solved_increment_unguarded (sub : JudgeSubmission)
    (tests : List TestCase) (exec : Nat → ExecRequest → ExecOutcome)
    (stats : Option Int) (h : run_judge sub tests exec = .Accepted) :
    (submissionView_post true true sub tests exec stats).stats_total_solved =
      stats.map (fun n => n + 1) := by
  simp [submissionView_post, updateStatsOnVerdict, h]

/-- Witness for the amended C8: a single accepted run moves 0 to 1. -/
theorem total_solved_increment_unguarded_witness :
    (submissionView_post true true fxSub [fxT1] fxExecEcho
      (some 0)).stats_total_solved = some 1 := by
  rw [total_solved_increment_unguarded fxSub [fxT1] fxExecEcho (some 0) (by decide)]
  rfl

/-- Counterexample to C4: user A (id 1) solves problem 31 at minute 5,
user B (id 2) solves it at minute 3.  The claim's ranking (equal score,
penalty ascending) demands B before A, but the code outputs A before B
(the stable sort falls back to user-id order; no penalty exists). -/
theorem leaderboard_ranking_ignores_penalty :
    specRankedOk 0 (contestLeaderboardView_get [fxSubA, fxSubB]) = false ∧
    (contestLeaderboardView_get [fxSubA, fxSubB]).map (fun e => e.user) =
      ["A", "B"] := by
  refine ⟨by decide, by decide⟩

/-- Counterexample to C9: with participant A registered but having no
submissions and participant B having one accepted submission, the
leaderboard output contains only B — A does not appear at all (with any
score), because the view iterates only over accepted submissions and
never consults the participant list. -/
theorem zero_submission_participant_absent :
    (contestLeaderboardView_get [fxSubB]).map (fun e => e.user) = ["B"] ∧
    (contestLeaderboardView_get [fxSubB]).any (fun e => e.user == "A") =
      false := by
  refine ⟨by decide, by decide⟩

/-- C10: for a submission attached to a contest whose end time lies in the
future, the serializer returns `None` for both the hidden testcase's input
and its expected output, for every requesting user — `can_view_details`
is irrelevant because the ongoing-contest gate fires after it for every
viewer, including the owner, contest managers and superusers. -/
theorem hidden_testcase_undisclosed_while_ongoing (r : SubmissionResult)
    (sub : SubRec) (user : Option Viewer) (t : Int) (c : ContestRec)
    (hc : sub.contest = some c) (ht : t < c.end_time)
    (hs : r.is_sample = false) :
    get_test_case_input r sub user t = none ∧
    get_expected_output_value r sub user t = none := by
  have hong : is_contest_ongoing sub t = true := by
    simp [is_contest_ongoing, hc, ht]
  cases hcv : can_view_details r sub user t with
  | false =>
    exact ⟨by simp [get_test_case_input, hcv],
      by simp [get_expected_output_value, hcv]⟩
  | true =>
    exact ⟨by simp [get_test_case_input, hcv, hong, hs],
      by simp [get_expected_output_value, hcv, hong, hs]⟩

/-- Witness for C10: even a viewer who is at once the owner, the contest
creator/manager and a superuser receives `None` for a hidden testcase's
input and expected output at minute 50 of a contest ending at minute
100. -/
theorem hidden_testcase_undisclosed_while_ongoing_witness :
    get_test_case_input fxHiddenRow fxContestSub (some fxOwnerAdmin) 50 = none ∧
    get_expected_output_value fxHiddenRow fxContestSub (some fxOwnerAdmin) 50 =
      none := by
  exact hidden_testcase_undisclosed_while_ongoing fxHiddenRow fxContestSub
    (some fxOwnerAdmin) 50 fxContest rfl (by decide) rfl

theorem mem_lbInsert (e f : LBEntry) (l : List LBEntry) :
    f ∈ lbInsert e l ↔ f = e ∨ f ∈ l := by
  induction l with
  | nil => simp [lbInsert]
  | cons g rest ih =>
    simp only [lbInsert]
    split
    · rw [List.mem_cons, ih, List.mem_cons]
      tauto
    · simp only [List.mem_cons]

theorem mem_lbSortDesc (f : LBEntry) (l : List LBEntry) :
    f ∈ lbSortDesc l ↔ f ∈ l := by
  induction l with
  | nil => simp [lbSortDesc]
  | cons e rest ih =>
    simp only [lbSortDesc]
    rw [mem_lbInsert, ih, List.mem_cons]

theorem lbInsert_pairwise (e : LBEntry) (l : List LBEntry)
    (h : l.Pairwise (fun a b => b.total_score ≤ a.total_score)) :
    (lbInsert e l).Pairwise (fun a b => b.total_score ≤ a.total_score) := by
  induction l with
  | nil => simp [lbInsert]
  | cons f rest ih =>
    rw [List.pairwise_cons] at h
    obtain ⟨hf, hrest⟩ := h
    simp only [lbInsert]
    split
    · rename_i hlt
      rw [List.pairwise_cons]
      refine ⟨?_, ih hrest⟩
      intro x hx
      rcases (mem_lbInsert e x rest).mp hx with hxe | hxr
      · subst hxe; omega
      · exact hf x hxr
    · rename_i hge
      rw [List.pairwise_cons]
      refine ⟨?_, List.pairwise_cons.mpr ⟨hf, hrest⟩⟩
      intro x hx
      rcases List.mem_cons.mp hx with hxf | hxr
      · subst hxf; omega
      · have := hf x hxr; omega

theorem lbSortDesc_pairwise (l : List LBEntry) :
    (lbSortDesc l).Pairwise (fun a b => b.total_score ≤ a.total_score) := by
  induction l with
  | nil => simp [lbSortDesc]
  | cons e rest ih =>
    simp only [lbSortDesc]
    exact lbInsert_pairwise e (lbSortDesc rest) ih

theorem lbInsert_filter (e : LBEntry) (l : List LBEntry) (n : Nat) :
    (lbInsert e l).filter (fun x => x.total_score == n) =
      if e.total_score = n then
        e :: l.filter (fun x => x.total_score == n)
      else l.filter (fun x => x.total_score == n) := by
  induction l with
  | nil =>
    by_cases he : e.total_score = n <;>
      simp [lbInsert, List.filter_cons, he]
  | cons f rest ih =>
    simp only [lbInsert]
    by_cases hef : e.total_score < f.total_score
    · rw [if_pos hef, List.filter_cons]
      by_cases he : e.total_score = n
      · have hf : ¬ f.total_score = n := by omega
        simp only [show (f.total_score == n) = false by simp [hf]]
        rw [ih, if_pos he, if_pos he, List.filter_cons]
        simp [hf]
      · rw [ih, if_neg he, if_neg he, List.filter_cons]
    · rw [if_neg hef, List.filter_cons, List.filter_cons]
      by_cases he : e.total_score = n
      · rw [if_pos he]
        simp [he]
      · rw [if_neg he]
        simp [he]

theorem lbSortDesc_filter (l : List LBEntry) (n : Nat) :
    (lbSortDesc l).filter (fun x => x.total_score == n) =
      l.filter (fun x => x.total_score == n) := by
  induction l with
  | nil => simp [lbSortDesc]
  | cons e rest ih =>
    simp only [lbSortDesc]
    rw [lbInsert_filter, List.filter_cons]
    by_cases he : e.total_score = n
    · rw [if_pos he, ih]
      simp [he]
    · rw [if_neg he, ih]
      simp [he]

theorem lbAddProblem_user (e : LBEntry) (s : LBSub) :
    (lbAddProblem e s).user = e.user := by
  unfold lbAddProblem
  split <;> rfl

theorem lbAddProblem_user_id (e : LBEntry) (s : LBSub) :
    (lbAddProblem e s).user_id = e.user_id := by
  unfold lbAddProblem
  split <;> rfl

theorem lbAddProblem_score (e : LBEntry) (s : LBSub)
    (h : e.total_score = 100 * e.problems.length) :
    (lbAddProblem e s).total_score = 100 * (lbAddProblem e s).problems.length := by
  unfold lbAddProblem
  split
  · exact h
  · simp only [List.length_append, List.length_cons, List.length_nil]
    omega

theorem mem_lbAddProblem (e : LBEntry) (s : LBSub) (c : LBProblemCell)
    (hc : c ∈ (lbAddProblem e s).problems) :
    c ∈ e.problems ∨
      (c = cellOf s ∧ ∀ c' ∈ e.problems, c'.problem_id ≠ s.problem_id) := by
  unfold lbAddProblem at hc
  by_cases hany : e.problems.any (fun p => p.problem_id == s.problem_id) = true
  · rw [if_pos hany] at hc
    exact Or.inl hc
  · rw [if_neg hany] at hc
    rcases List.mem_append.mp hc with h | h
    · exact Or.inl h
    · right
      refine ⟨by simpa using h, ?_⟩
      intro c' hc' heq
      apply hany
      rw [List.any_eq_true]
      exact ⟨c', hc', by simp [heq]⟩

theorem lbAddProblem_superset (e : LBEntry) (s : LBSub) (c : LBProblemCell)
    (hc : c ∈ e.problems) : c ∈ (lbAddProblem e s).problems := by
  unfold lbAddProblem
  split
  · exact hc
  · exact List.mem_append_left _ hc

theorem lbAddProblem_covers (e : LBEntry) (s : LBSub) :
    ∃ c ∈ (lbAddProblem e s).problems, c.problem_id = s.problem_id := by
  unfold lbAddProblem
  by_cases hany : e.problems.any (fun p => p.problem_id == s.problem_id) = true
  · rw [if_pos hany]
    obtain ⟨c, hc, hcp⟩ := List.any_eq_true.mp hany
    exact ⟨c, hc, by simpa using hcp⟩
  · rw [if_neg hany]
    exact ⟨cellOf s, by simp, rfl⟩

theorem lbUpdateUser_user (s : LBSub) (e : LBEntry) :
    (if e.user == s.username then lbAddProblem e s else e).user = e.user := by
  split
  · exact lbAddProblem_user e s
  · rfl

theorem lbUpdateUser_user_id (s : LBSub) (e : LBEntry) :
    (if e.user == s.username then lbAddProblem e s else e).user_id = e.user_id := by
  split
  · exact lbAddProblem_user_id e s
  · rfl

theorem lbUpdateUser_cells (s : LBSub) (e : LBEntry) (c : LBProblemCell)
    (hc : c ∈ (if e.user == s.username then lbAddProblem e s else e).problems) :
    c ∈ e.problems ∨
      (e.user = s.username ∧ c = cellOf s ∧
        ∀ c' ∈ e.problems, c'.problem_id ≠ s.problem_id) := by
  by_cases hbe : (e.user == s.username) = true
  · rw [if_pos hbe] at hc
    rcases mem_lbAddProblem e s c hc with h | h
    · exact Or.inl h
    · exact Or.inr ⟨by simpa using hbe, h.1, h.2⟩
  · rw [if_neg hbe] at hc
    exact Or.inl hc

theorem lbUpdateUser_inv (done : List LBSub) (s : LBSub) (l : List LBEntry)
    (hS : ∀ e ∈ l, e.total_score = 100 * e.problems.length)
    (hSRC : ∀ e ∈ l, ∀ c ∈ e.problems, ∃ s0 ∈ done,
      s0.username = e.user ∧ s0.problem_id = c.problem_id ∧
      s0.problem_title = c.title ∧ s0.created_at = c.solved_at)
    (hMIN : ∀ e ∈ l, ∀ c ∈ e.problems, ∀ s0 ∈ done,
      s0.username = e.user → s0.problem_id = c.problem_id →
      c.solved_at ≤ s0.created_at)
    (hCOV0 : ∀ s0 ∈ done, ∃ e ∈ l, e.user = s0.username)
    (hCOVP : ∀ s0 ∈ done, ∀ e ∈ l, e.user = s0.username →
      ∃ c ∈ e.problems, c.problem_id = s0.problem_id)
    (hUSR : ∀ e ∈ l,
      (∃ s0 ∈ done, s0.username = e.user ∧ s0.user_id = e.user_id) ∨
        (e.user = s.username ∧ e.user_id = s.user_id))
    (hHasS : ∃ e ∈ l, e.user = s.username)
    (hbefore : ∀ s0 ∈ done, lbLexLE s0 s)
    (husr : ∀ s0 ∈ done, s0.username = s.username → s0.user_id = s.user_id) :
    LbInv (done ++ [s]) (lbUpdateUser l s) := by
  have hmem : ∀ e' ∈ lbUpdateUser l s,
      ∃ e ∈ l, (if e.user == s.username then lbAddProblem e s else e) = e' := by
    intro e' he'
    exact List.mem_map.mp he'
  have hSmem : s ∈ done ++ [s] := List.mem_append_right _ (List.mem_singleton.mpr rfl)
  unfold LbInv
  refine ⟨?_, ?_, ?_, ?_, ?_, ?_⟩
  · -- score formula
    intro e' he'
    obtain ⟨e, he, rfl⟩ := hmem e' he'
    by_cases hbe : (e.user == s.username) = true
    · rw [if_pos hbe]
      exact lbAddProblem_score e s (hS e he)
    · rw [if_neg hbe]
      exact hS e he
  · -- every cell has a source submission
    intro e' he' c hc
    obtain ⟨e, he, rfl⟩ := hmem e' he'
    rcases lbUpdateUser_cells s e c hc with hcold | ⟨heu, rfl, _⟩
    · obtain ⟨s0, hs0, h1, h2, h3, h4⟩ := hSRC e he c hcold
      exact ⟨s0, List.mem_append_left _ hs0,
        by rw [lbUpdateUser_user]; exact h1, h2, h3, h4⟩
    · exact ⟨s, hSmem, by rw [lbUpdateUser_user]; exact heu.symm, rfl, rfl, rfl⟩
  · -- minimality of each cell's solved_at
    intro e' he' c hc s0 hs0 hname hpid
    obtain ⟨e, he, rfl⟩ := hmem e' he'
    rw [lbUpdateUser_user] at hname
    rcases lbUpdateUser_cells s e c hc with hcold | ⟨heu, rfl, hnone⟩
    · rcases List.mem_append.mp hs0 with hs0d | hs0s
      · exact hMIN e he c hcold s0 hs0d hname hpid
      · have hs0eq : s0 = s := List.mem_singleton.mp hs0s
        subst hs0eq
        obtain ⟨s1, hs1, h1, _, _, h4⟩ := hSRC e he c hcold
        have huid1 : s1.user_id = s0.user_id :=
          husr s1 hs1 (h1.trans hname.symm)
        rcases hbefore s1 hs1 with hlt | ⟨_, hle⟩
        · omega
        · omega
    · rcases List.mem_append.mp hs0 with hs0d | hs0s
      · exfalso
        have hs0name : e.user = s0.username := hname.symm
        obtain ⟨c', hc', hc'p⟩ := hCOVP s0 hs0d e he hs0name
        have : c'.problem_id = s.problem_id := by
          rw [hc'p, hpid]
          rfl
        exact hnone c' hc' this
      · have hs0eq : s0 = s := List.mem_singleton.mp hs0s
        subst hs0eq
        exact le_refl _
  · -- every processed submission's user has an entry
    intro s0 hs0
    rcases List.mem_append.mp hs0 with hs0d | hs0s
    · obtain ⟨e, he, heq⟩ := hCOV0 s0 hs0d
      refine ⟨(if e.user == s.username then lbAddProblem e s else e),
        List.mem_map.mpr ⟨e, he, rfl⟩, ?_⟩
      rw [lbUpdateUser_user]
      exact heq
    · have hs0eq : s0 = s := List.mem_singleton.mp hs0s
      obtain ⟨e, he, heq⟩ := hHasS
      refine ⟨(if e.user == s.username then lbAddProblem e s else e),
        List.mem_map.mpr ⟨e, he, rfl⟩, ?_⟩
      rw [lbUpdateUser_user, hs0eq]
      exact heq
  · -- every matching entry carries a cell for the processed problem
    intro s0 hs0 e' he' hname
    obtain ⟨e, he, rfl⟩ := hmem e' he'
    rw [lbUpdateUser_user] at hname
    rcases List.mem_append.mp hs0 with hs0d | hs0s
    · obtain ⟨c, hc, hcp⟩ := hCOVP s0 hs0d e he hname
      by_cases hbe : (e.user == s.username) = true
      · rw [if_pos hbe]
        exact ⟨c, lbAddProblem_superset e s c hc, hcp⟩
      · rw [if_neg hbe]
        exact ⟨c, hc, hcp⟩
    · have hs0eq : s0 = s := List.mem_singleton.mp hs0s
      have hbe : (e.user == s.username) = true := by
        rw [hs0eq] at hname
        simp [hname]
      rw [if_pos hbe]
      obtain ⟨c, hc, hcp⟩ := lbAddProblem_covers e s
      exact ⟨c, hc, by rw [hcp, hs0eq]⟩
  · -- every entry originates from a processed submission
    intro e' he'
    obtain ⟨e, he, rfl⟩ := hmem e' he'
    rcases hUSR e he with ⟨s0, hs0, h1, h2⟩ | ⟨h1, h2⟩
    · exact ⟨s0, List.mem_append_left _ hs0,
        by rw [lbUpdateUser_user]; exact h1,
        by rw [lbUpdateUser_user_id]; exact h2⟩
    · exact ⟨s, hSmem,
        by rw [lbUpdateUser_user]; exact h1.symm,
        by rw [lbUpdateUser_user_id]; exact h2.symm⟩

theorem lbStep_inv (done : List LBSub) (entries : List LBEntry) (s : LBSub)
    (hinv : LbInv done entries)
    (hbefore : ∀ s0 ∈ done, lbLexLE s0 s)
    (husr : ∀ s0 ∈ done, s0.username = s.username → s0.user_id = s.user_id) :
    LbInv (done ++ [s]) (lbStep entries s) := by
  obtain ⟨hS, hSRC, hMIN, hCOV0, hCOVP, hUSR⟩ := hinv
  unfold lbStep
  by_cases hhas : lbHasUser entries s.username = true
  · rw [if_pos hhas]
    refine lbUpdateUser_inv done s entries hS hSRC hMIN hCOV0 hCOVP ?_ ?_
      hbefore husr
    · intro e he
      exact Or.inl (hUSR e he)
    · obtain ⟨e, he, hbe⟩ := List.any_eq_true.mp hhas
      exact ⟨e, he, by simpa using hbe⟩
  · rw [if_neg hhas]
    refine lbUpdateUser_inv done s _ ?_ ?_ ?_ ?_ ?_ ?_ ?_ hbefore husr
    · intro e he
      rcases List.mem_append.mp he with h | h
      · exact hS e h
      · rw [List.mem_singleton.mp h]
        simp
    · intro e he c hc
      rcases List.mem_append.mp he with h | h
      · exact hSRC e h c hc
      · rw [List.mem_singleton.mp h] at hc
        simp at hc
    · intro e he c hc s0 hs0 h1 h2
      rcases List.mem_append.mp he with h | h
      · exact hMIN e h c hc s0 hs0 h1 h2
      · rw [List.mem_singleton.mp h] at hc
        simp at hc
    · intro s0 hs0
      obtain ⟨e, he, heq⟩ := hCOV0 s0 hs0
      exact ⟨e, List.mem_append_left _ he, heq⟩
    · intro s0 hs0 e he heq
      rcases List.mem_append.mp he with h | h
      · exact hCOVP s0 hs0 e h heq
      · exfalso
        rw [List.mem_singleton.mp h] at heq
        obtain ⟨e0, he0, heq0⟩ := hCOV0 s0 hs0
        apply hhas
        rw [lbHasUser, List.any_eq_true]
        refine ⟨e0, he0, ?_⟩
        simp only [beq_iff_eq]
        rw [heq0, ← heq]
    · intro e he
      rcases List.mem_append.mp he with h | h
      · exact Or.inl (hUSR e h)
      · rw [List.mem_singleton.mp h]
        exact Or.inr ⟨rfl, rfl⟩
    · exact ⟨⟨s.username, s.user_id, 0, []⟩,
        List.mem_append_right _ (List.mem_singleton.mpr rfl), rfl⟩

theorem lbBuild_go (todo : List LBSub) :
    ∀ (done : List LBSub) (entries : List LBEntry),
      LbInv done entries →
      (done ++ todo).Pairwise lbLexLE →
      UidConsistent (done ++ todo) →
      LbInv (done ++ todo) (todo.foldl lbStep entries) := by
  induction todo with
  | nil =>
    intro done entries hinv _ _
    simpa using hinv
  | cons s todo' ih =>
    intro done entries hinv hsort huid
    have hbefore : ∀ s0 ∈ done, lbLexLE s0 s := by
      intro s0 hs0
      exact (List.pairwise_append.mp hsort).2.2 s0 hs0 s
        (List.mem_cons_self s todo')
    have husr : ∀ s0 ∈ done, s0.username = s.username → s0.user_id = s.user_id := by
      intro s0 hs0 h
      exact huid s0 (List.mem_append_left _ hs0) s
        (List.mem_append_right _ (List.mem_cons_self s todo')) h
    have hstep := lbStep_inv done entries s hinv hbefore husr
    have heq : done ++ s :: todo' = (done ++ [s]) ++ todo' := by simp
    have hsort' : ((done ++ [s]) ++ todo').Pairwise lbLexLE := by
      rw [← heq]; exact hsort
    have huid' : UidConsistent ((done ++ [s]) ++ todo') := by
      rw [← heq]; exact huid
    have hmain := ih (done ++ [s]) (lbStep entries s) hstep hsort' huid'
    rw [List.foldl_cons, heq]
    exact hmain

theorem lbBuild_inv (subs : List LBSub)
    (hsort : subs.Pairwise lbLexLE) (huid : UidConsistent subs) :
    LbInv subs (lbBuild subs) := by
  have h0 : LbInv [] ([] : List LBEntry) := by
    unfold LbInv
    refine ⟨?_, ?_, ?_, ?_, ?_, ?_⟩ <;> simp
  have h := lbBuild_go subs [] [] h0 (by simpa using hsort) (by simpa using huid)
  simpa using h

/-- C4 (amended): with the queryset in its `order_by('user', 'created_at')`
order and the username/user-id correspondence consistent, the leaderboard
awards each (participant, problem) pair a flat 100 points — not the
item's configured score — based on the earliest-created AC submission
(every recorded cell comes from an AC submission of that user for that
problem and carries the minimal creation time); it computes no penalty
time; and it ranks by total score descending only, ties keeping the
dict's insertion order (stable sort on the built entries). -/
theorem leaderboard_flat_score_rank (subs : List LBSub)
    (hsort : subs.Pairwise lbLexLE) (huid : UidConsistent subs) :
    (∀ e ∈ contestLeaderboardView_get subs,
      e.total_score = 100 * e.problems.length) ∧
    (contestLeaderboardView_get subs).Pairwise
      (fun a b => b.total_score ≤ a.total_score) ∧
    (∀ n : Nat, (contestLeaderboardView_get subs).filter
        (fun x => x.total_score == n) =
      (lbBuild subs).filter (fun x => x.total_score == n)) ∧
    (∀ e ∈ contestLeaderboardView_get subs, ∀ c ∈ e.problems,
      (∃ s ∈ subs, s.username = e.user ∧ s.problem_id = c.problem_id ∧
        s.problem_title = c.title ∧ s.created_at = c.solved_at) ∧
      (∀ s ∈ subs, s.username = e.user → s.problem_id = c.problem_id →
        c.solved_at ≤ s.created_at)) ∧
    (∀ s ∈ subs, ∃ e ∈ contestLeaderboardView_get subs,
      e.user = s.username ∧ ∃ c ∈ e.problems, c.problem_id = s.problem_id) := by
  obtain ⟨hS, hSRC, hMIN, hCOV0, hCOVP, _⟩ := lbBuild_inv subs hsort huid
  refine ⟨?_, ?_, ?_, ?_, ?_⟩
  · intro e he
    exact hS e ((mem_lbSortDesc e (lbBuild subs)).mp he)
  · exact lbSortDesc_pairwise (lbBuild subs)
  · intro n
    exact lbSortDesc_filter (lbBuild subs) n
  · intro e he c hc
    have he' := (mem_lbSortDesc e (lbBuild subs)).mp he
    exact ⟨hSRC e he' c hc, hMIN e he' c hc⟩
  · intro s hs
    obtain ⟨e, he, heq⟩ := hCOV0 s hs
    obtain ⟨c, hc, hcp⟩ := hCOVP s hs e he heq
    exact ⟨e, (mem_lbSortDesc e (lbBuild subs)).mpr he, heq, c, hc, hcp⟩

/-- Witness for the amended C4: the stability clause evaluated at the
two-user fixture and score 100. -/
theorem leaderboard_flat_score_rank_witness :
    (contestLeaderboardView_get [fxSubA, fxSubB]).filter
      (fun x => x.total_score == 100) =
    (lbBuild [fxSubA, fxSubB]).filter (fun x => x.total_score == 100) := by
  exact (leaderboard_flat_score_rank [fxSubA, fxSubB]
    (by decide) (by decide)).2.2.1 100

/-- C9 (amended): the leaderboard output contains exactly the users having
at least one accepted submission — every entry originates from an AC
submission, and every AC submission's user appears; a participant with
zero submissions is therefore absent from the output entirely rather than
listed with score 0. -/
theorem leaderboard_members_exactly_ac_users (subs : List LBSub)
    (hsort : subs.Pairwise lbLexLE) (huid : UidConsistent subs) :
    (∀ e ∈ contestLeaderboardView_get subs,
      ∃ s ∈ subs, s.username = e.user ∧ s.user_id = e.user_id) ∧
    (∀ s ∈ subs, ∃ e ∈ contestLeaderboardView_get subs,
      e.user = s.username) := by
  obtain ⟨_, _, _, hCOV0, _, hUSR⟩ := lbBuild_inv subs hsort huid
  constructor
  · intro e he
    exact hUSR e ((mem_lbSortDesc e (lbBuild subs)).mp he)
  · intro s hs
    obtain ⟨e, he, heq⟩ := hCOV0 s hs
    exact ⟨e, (mem_lbSortDesc e (lbBuild subs)).mpr he, heq⟩

/-- Witness for the amended C9: user B appears in the output of the
single-submission fixture. -/
theorem leaderboard_members_exactly_ac_users_witness :
    ∃ e ∈ contestLeaderboardView_get [fxSubB], e.user = "B" := by
  exact (leaderboard_members_exactly_ac_users [fxSubB]
    (by decide) (by decide)).2 fxSubB (by simp)

end CPB
